import Mathlib

/-!
Shallow embedding of the snapshot-timeline engine of `src/editor3.py`
(class `TimelineEditor` and the file-content helper `write_file`).

Modelling conventions:
* A Python snapshot dict `{time, desc, lines}` becomes the structure `Snapshot`.
* The editor object becomes the structure `Timeline` with fields `original`,
  `snapshots` and `current_index`.  `current_index` is an `Int`, because the
  constructor transiently sets it to `-1` and user-supplied indices are
  arbitrary integers.
* `copy.deepcopy` on a list of strings is the identity under value semantics;
  it is kept as the function `deepcopy` to mirror the source text.
* `datetime.now()` is an input: every operation that creates a snapshot takes
  the current wall-clock string `now` as an explicit parameter.
* Python slicing `xs[:j]` with an integer bound becomes `pyTake`, faithful to
  Python semantics also for negative `j`.
* Methods that only print (`preview_state`, `play`, `save`) return the
  unchanged timeline paired with the data they would render; the printed
  success and failure messages of the mutating methods are modelled by the
  companion `*_msg` functions.
-/

/-- One history entry: creation time, description, full file content. -/
structure Snapshot where
  time : String
  desc : String
  lines : List String
deriving DecidableEq, Repr

/-- The state of a `TimelineEditor`: the originally loaded content, the
snapshot sequence and the cursor. -/
structure Timeline where
  original : List String
  snapshots : List Snapshot
  current_index : Int
deriving DecidableEq, Repr

/-- `copy.deepcopy` on string lists: the identity under value semantics. -/
def deepcopy (xs : List String) : List String := xs

/-- Python slice `xs[:j]` for an integer bound `j` (negative bounds count
from the end, clamped at 0). -/
def pyTake (xs : List α) (j : Int) : List α :=
  if 0 ≤ j then xs.take j.toNat else xs.take ((xs.length : Int) + j).toNat

/-- `self.snapshots[i]` for a nonnegative index, with a dummy default that is
never reached when the index is in range. -/
def snapAt (t : Timeline) (i : Nat) : Snapshot :=
  (t.snapshots.get? i).getD ⟨"", "", []⟩

/-- `TimelineEditor.push_snapshot` (src/editor3.py lines 34-46).  The
defensive `hasattr` branch is a no-op for an initialized object and is not
modelled. -/
def push_snapshot (t : Timeline) (lines : List String) (desc : String)
    (now : String) : Timeline :=
  let snap : Snapshot := ⟨now, desc, deepcopy lines⟩
  let snaps :=
    if t.current_index < (t.snapshots.length : Int) - 1 then
      pyTake t.snapshots (t.current_index + 1)
    else t.snapshots
  { t with snapshots := snaps ++ [snap],
           current_index := ((snaps ++ [snap]).length : Int) - 1 }

/-- `TimelineEditor.current_lines` (lines 48-49). -/
def current_lines (t : Timeline) : List String :=
  deepcopy (snapAt t t.current_index.toNat).lines

/-- `TimelineEditor.__init__` (lines 26-32): the loaded file content seeds the
timeline via `push_snapshot`, starting from an empty history and cursor -1. -/
def init_editor (original : List String) (now : String) : Timeline :=
  push_snapshot ⟨original, [], -1⟩ original "Loaded original file" now

/-- `TimelineEditor.replace_line` (lines 56-64).  The quote characters that
the Python f-string puts around the old and new text are omitted from the
description. -/
def replace_line (t : Timeline) (lineno : Int) (new_text : String)
    (now : String) : Timeline :=
  if 0 ≤ lineno ∧ lineno < ((current_lines t).length : Int) then
    push_snapshot t ((current_lines t).set lineno.toNat new_text)
      ("Replace line " ++ toString lineno ++ ": " ++
        (((current_lines t).get? lineno.toNat).getD "") ++ " -> " ++ new_text)
      now
  else t

/-- The message printed by `replace_line`. -/
def replace_line_msg (t : Timeline) (lineno : Int) : String :=
  if 0 ≤ lineno ∧ lineno < ((current_lines t).length : Int) then "Replaced."
  else "Line number out of range."

/-- `TimelineEditor.insert_line` (lines 66-73). -/
def insert_line (t : Timeline) (lineno : Int) (new_text : String)
    (now : String) : Timeline :=
  if 0 ≤ lineno ∧ lineno ≤ ((current_lines t).length : Int) then
    push_snapshot t
      ((current_lines t).take lineno.toNat ++
        new_text :: (current_lines t).drop lineno.toNat)
      ("Insert at " ++ toString lineno ++ ": " ++ new_text) now
  else t

/-- The message printed by `insert_line`. -/
def insert_line_msg (t : Timeline) (lineno : Int) : String :=
  if 0 ≤ lineno ∧ lineno ≤ ((current_lines t).length : Int) then "Inserted."
  else "Line number out of range."

/-- `TimelineEditor.delete_line` (lines 75-82). -/
def delete_line (t : Timeline) (lineno : Int) (now : String) : Timeline :=
  if 0 ≤ lineno ∧ lineno < ((current_lines t).length : Int) then
    push_snapshot t
      ((current_lines t).take lineno.toNat ++
        (current_lines t).drop (lineno.toNat + 1))
      ("Delete line " ++ toString lineno ++ ": " ++
        (((current_lines t).get? lineno.toNat).getD "")) now
  else t

/-- The message printed by `delete_line`. -/
def delete_line_msg (t : Timeline) (lineno : Int) : String :=
  if 0 ≤ lineno ∧ lineno < ((current_lines t).length : Int) then "Deleted."
  else "Line number out of range."

/-- `TimelineEditor.checkout` (lines 100-106). -/
def checkout (t : Timeline) (index : Int) (now : String) : Timeline :=
  if 0 ≤ index ∧ index < (t.snapshots.length : Int) then
    let t2 := { t with current_index := index }
    push_snapshot t2 (current_lines t2)
      ("Checkout state " ++ toString index ++ " as new head") now
  else t

/-- The message printed by `checkout` (the success text reads the cursor
after the push, as the source does). -/
def checkout_msg (t : Timeline) (index : Int) (now : String) : String :=
  if 0 ≤ index ∧ index < (t.snapshots.length : Int) then
    "Checked out state " ++ toString index ++
      " and created new head at index " ++
      toString (checkout t index now).current_index ++ "."
  else "Index out of range."

/-- `TimelineEditor.preview_state` (lines 92-98): read-only; returns the
unchanged timeline and the lines it renders (`none` reports out of range). -/
def preview_state (t : Timeline) (index : Int) :
    Timeline × Option (List String) :=
  if 0 ≤ index ∧ index < (t.snapshots.length : Int) then
    (t, some (snapAt t index.toNat).lines)
  else (t, none)

/-- `TimelineEditor.play` (lines 120-126): read-only traversal of the whole
history from index 0 to the tip. -/
def play (t : Timeline) : Timeline × List (Nat × String × List String) :=
  (t, t.snapshots.enum.map (fun p => (p.1, p.2.time, p.2.lines)))

/-- Python `s.endswith("\n")` for the one-character suffix: the last
character of `s` is a newline. -/
def ends_newline (s : String) : Bool :=
  decide (s.data.getLast? = some (Char.ofNat 10))

/-- `write_file` (lines 15-19): the exact string written for a given line
sequence. -/
def write_file (lines : List String) : String :=
  String.intercalate "\n" lines ++
    (if lines ≠ [] ∧ ends_newline ((lines.getLast?).getD "") = false then "\n"
     else "")

/-- Modelled from the wording of the spec for comparison: lines joined by
newline followed by one trailing newline. -/
def write_file_spec (lines : List String) : String :=
  String.intercalate "\n" lines ++ "\n"

/-- `TimelineEditor.save` (lines 108-118): read-only on the timeline; returns
the backup content (the original) and the main content (the current lines). -/
def save (t : Timeline) : Timeline × String × String :=
  (t, write_file t.original, write_file (current_lines t))

/-- A single line-editing command as dispatched by the command loop. -/
inductive Edit where
  | rep (lineno : Int) (text : String)
  | ins (lineno : Int) (text : String)
  | del (lineno : Int)
deriving DecidableEq, Repr

/-- Dispatch of one edit to the corresponding method. -/
def apply_edit (t : Timeline) (e : Edit) (now : String) : Timeline :=
  match e with
  | .rep n s => replace_line t n s now
  | .ins n s => insert_line t n s now
  | .del n => delete_line t n now

/-- The in-range guard of the method an edit dispatches to. -/
def edit_ok (t : Timeline) (e : Edit) : Bool :=
  match e with
  | .rep n _ => decide (0 ≤ n ∧ n < ((current_lines t).length : Int))
  | .ins n _ => decide (0 ≤ n ∧ n ≤ ((current_lines t).length : Int))
  | .del n => decide (0 ≤ n ∧ n < ((current_lines t).length : Int))

/-- The content the edit computes from the current lines before pushing. -/
def edit_lines (lines : List String) : Edit → List String
  | .rep n s => lines.set n.toNat s
  | .ins n s => lines.take n.toNat ++ s :: lines.drop n.toNat
  | .del n => lines.take n.toNat ++ lines.drop (n.toNat + 1)

/-- The description string the edit pushes, computed from the current lines
exactly as the corresponding method does. -/
def edit_desc (lines : List String) : Edit → String
  | .rep n s => "Replace line " ++ toString n ++ ": " ++
      ((lines.get? n.toNat).getD "") ++ " -> " ++ s
  | .ins n s => "Insert at " ++ toString n ++ ": " ++ s
  | .del n => "Delete line " ++ toString n ++ ": " ++
      ((lines.get? n.toNat).getD "")

/-- Apply a sequence of edits, each with its own wall-clock string. -/
def apply_edits : Timeline → List (Edit × String) → Timeline
  | t, [] => t
  | t, (e, now) :: rest => apply_edits (apply_edit t e now) rest

/-- Every edit of the sequence is in range at the moment it runs. -/
def edits_ok : Timeline → List (Edit × String) → Bool
  | _, [] => true
  | t, (e, now) :: rest => edit_ok t e && edits_ok (apply_edit t e now) rest

/-- States the program can actually be in: freshly constructed, or the image
of a state by one of the methods. -/
inductive Reachable (original : List String) : Timeline → Prop where
  | init (now : String) : Reachable original (init_editor original now)
  | push (t : Timeline) (lines : List String) (desc now : String) :
      Reachable original t → Reachable original (push_snapshot t lines desc now)
  | rep (t : Timeline) (n : Int) (s now : String) :
      Reachable original t → Reachable original (replace_line t n s now)
  | ins (t : Timeline) (n : Int) (s now : String) :
      Reachable original t → Reachable original (insert_line t n s now)
  | del (t : Timeline) (n : Int) (now : String) :
      Reachable original t → Reachable original (delete_line t n now)
  | co (t : Timeline) (i : Int) (now : String) :
      Reachable original t → Reachable original (checkout t i now)
  | preview (t : Timeline) (i : Int) :
      Reachable original t → Reachable original (preview_state t i).1
  | play (t : Timeline) :
      Reachable original t → Reachable original (play t).1
  | save (t : Timeline) :
      Reachable original t → Reachable original (save t).1

/-- The run-time invariant tying a state to the loaded content. -/
def TimelineInv (original : List String) (t : Timeline) : Prop :=
  t.snapshots ≠ [] ∧
  t.current_index = (t.snapshots.length : Int) - 1 ∧
  (t.snapshots.get? 0).map Snapshot.lines = some original ∧
  t.original = original

/-- Step 0 of the spec scenario of section 8: load `["a","b","c"]`. -/
def demo0 : Timeline := init_editor ["a", "b", "c"] "t0"

/-- Step 1 of the scenario: `replace_line(1, "B")`. -/
def demo1 : Timeline := replace_line demo0 1 "B" "t1"

/-- Step 2 of the scenario: `insert_line(0, "Z")`. -/
def demo2 : Timeline := insert_line demo1 0 "Z" "t2"

/-- Step 3 of the scenario: `checkout(0)`. -/
def demo3 : Timeline := checkout demo2 0 "t3"

/-- Step 4 of the scenario: `delete_line(0)`. -/
def demo4 : Timeline := delete_line demo3 0 "t4"

/-- A two-snapshot state whose cursor sits on the first snapshot, so that a
push truncates. -/
def wtl : Timeline :=
  ⟨["a"], [⟨"t0", "d0", ["a"]⟩, ⟨"t1", "d1", ["b"]⟩], 0⟩

/-- A small everywhere-in-range edit sequence: insert a line, delete it. -/
def wes : List (Edit × String) := [(Edit.ins 0 "b", "w1"), (Edit.del 0, "w2")]

/-- A file loaded with one line `x`. -/
def co0 : Timeline := init_editor ["x"] "s0"

/-- One edit on top of `co0`, so that index 0 is a strict past point. -/
def co1 : Timeline := replace_line co0 0 "y" "s1"

/-- Checkout of past point 0 of `co1`, followed by one valid edit. -/
def co2 : Timeline := insert_line (checkout co1 0 "s2") 0 "z" "s3"

example : current_lines (init_editor ["a", "b"] "t0") = ["a", "b"] := by decide
example : (init_editor ["a", "b"] "t0").current_index = 0 := by decide
example :
    (replace_line (init_editor ["a", "b"] "t0") 1 "B" "t1").snapshots.length
      = 2 := by decide

lemma pyTake_nonneg (xs : List α) (j : Int) (h : 0 ≤ j) :
    pyTake xs j = xs.take j.toNat := by
  unfold pyTake
  rw [if_pos h]

/-- Closed form of `push_snapshot` for every cursor the program ever builds
(cursor at least -1): keep entries 0..current_index, append the new snapshot,
move the cursor to the new tip. -/
lemma push_eq (t : Timeline) (l : List String) (d now : String)
    (h : -1 ≤ t.current_index) :
    push_snapshot t l d now =
      { t with
        snapshots := t.snapshots.take (t.current_index + 1).toNat ++ [⟨now, d, l⟩],
        current_index :=
          ((t.snapshots.take (t.current_index + 1).toNat).length : Int) } := by
  unfold push_snapshot deepcopy
  by_cases hc : t.current_index < (t.snapshots.length : Int) - 1
  · rw [if_pos hc, pyTake_nonneg _ _ (by omega)]
    simp
  · rw [if_neg hc]
    have hlen : t.snapshots.length ≤ (t.current_index + 1).toNat := by omega
    rw [List.take_of_length_le hlen]
    simp

/-- When the cursor already sits at the tip, `push_snapshot` truncates
nothing: it appends one snapshot and moves the cursor to it. -/
lemma push_tip (t : Timeline) (l : List String) (d now : String)
    (h0 : 0 ≤ t.current_index)
    (h : t.current_index = (t.snapshots.length : Int) - 1) :
    push_snapshot t l d now =
      { t with snapshots := t.snapshots ++ [⟨now, d, l⟩],
               current_index := (t.snapshots.length : Int) } := by
  rw [push_eq t l d now (by omega)]
  have hn : (t.current_index + 1).toNat = t.snapshots.length := by omega
  rw [hn, List.take_length]

/-- Closed form of the constructor. -/
lemma init_editor_eq (original : List String) (now : String) :
    init_editor original now =
      ⟨original, [⟨now, "Loaded original file", original⟩], 0⟩ := by
  unfold init_editor push_snapshot deepcopy
  simp

/-- Closed form of `checkout` at an in-range index: the history becomes
entries 0..index followed by one duplicate of entry index; the cursor lands
just after it. -/
lemma checkout_eq (t : Timeline) (k : Int) (now : String)
    (h0 : 0 ≤ k) (h1 : k < (t.snapshots.length : Int)) :
    checkout t k now =
      { t with
        snapshots := t.snapshots.take (k.toNat + 1) ++
          [⟨now, "Checkout state " ++ toString k ++ " as new head",
            (snapAt t k.toNat).lines⟩],
        current_index := k + 1 } := by
  unfold checkout
  rw [if_pos ⟨h0, h1⟩]
  rw [push_eq _ _ _ _ (by simpa using by omega : -1 ≤ ({ t with current_index := k } : Timeline).current_index)]
  have hk1 : (k + 1).toNat = k.toNat + 1 := by omega
  have hle : k.toNat + 1 ≤ t.snapshots.length := by omega
  simp only [current_lines, deepcopy, snapAt]
  simp [hk1, List.length_take, Nat.min_eq_left hle]
  omega

/-- `checkout` at an out-of-range index is the identity. -/
lemma checkout_oob (t : Timeline) (k : Int) (now : String)
    (h : ¬ (0 ≤ k ∧ k < (t.snapshots.length : Int))) :
    checkout t k now = t := by
  unfold checkout
  rw [if_neg h]

lemma preview_fst (t : Timeline) (i : Int) : (preview_state t i).1 = t := by
  unfold preview_state
  split <;> rfl

lemma play_fst (t : Timeline) : (play t).1 = t := rfl

lemma save_fst (t : Timeline) : (save t).1 = t := rfl

lemma inv_push (o l : List String) (t : Timeline) (d now : String)
    (h : TimelineInv o t) : TimelineInv o (push_snapshot t l d now) := by
  obtain ⟨hne, hci, hhead, horig⟩ := h
  have hlen : 1 ≤ t.snapshots.length := List.length_pos.mpr hne
  rw [push_tip t l d now (by omega) hci]
  refine ⟨by simp, by simp, ?_, horig⟩
  show ((t.snapshots ++ [(⟨now, d, l⟩ : Snapshot)]).get? 0).map Snapshot.lines
      = some o
  rw [List.get?_append (show 0 < t.snapshots.length by omega)]
  exact hhead

lemma inv_replace (o : List String) (t : Timeline) (n : Int) (s now : String)
    (h : TimelineInv o t) : TimelineInv o (replace_line t n s now) := by
  unfold replace_line
  split
  · exact inv_push o _ t _ now h
  · exact h

lemma inv_insert (o : List String) (t : Timeline) (n : Int) (s now : String)
    (h : TimelineInv o t) : TimelineInv o (insert_line t n s now) := by
  unfold insert_line
  split
  · exact inv_push o _ t _ now h
  · exact h

lemma inv_delete (o : List String) (t : Timeline) (n : Int) (now : String)
    (h : TimelineInv o t) : TimelineInv o (delete_line t n now) := by
  unfold delete_line
  split
  · exact inv_push o _ t _ now h
  · exact h

lemma inv_checkout (o : List String) (t : Timeline) (k : Int) (now : String)
    (h : TimelineInv o t) : TimelineInv o (checkout t k now) := by
  obtain ⟨hne, hci, hhead, horig⟩ := h
  by_cases hk : 0 ≤ k ∧ k < (t.snapshots.length : Int)
  · rw [checkout_eq t k now hk.1 hk.2]
    have hle : k.toNat + 1 ≤ t.snapshots.length := by omega
    refine ⟨by simp, ?_, ?_, horig⟩
    · simp [List.length_take, Nat.min_eq_left hle]
      omega
    · have h0 : 0 < (t.snapshots.take (k.toNat + 1)).length := by
        simp [List.length_take, Nat.min_eq_left hle]
      rw [List.get?_append h0, List.get?_take (by omega)]
      exact hhead
  · rw [checkout_oob t k now hk]
    exact ⟨hne, hci, hhead, horig⟩

lemma inv_init (o : List String) (now : String) :
    TimelineInv o (init_editor o now) := by
  rw [init_editor_eq]
  exact ⟨by simp, by simp, by simp, rfl⟩

/-- Every reachable state satisfies the run-time invariant: nonempty history,
cursor at the tip, snapshot 0 holding the loaded content. -/
lemma reachable_inv (o : List String) (t : Timeline)
    (h : Reachable o t) : TimelineInv o t := by
  induction h with
  | init now => exact inv_init o now
  | push t l d now _ ih => exact inv_push o l t d now ih
  | rep t n s now _ ih => exact inv_replace o t n s now ih
  | ins t n s now _ ih => exact inv_insert o t n s now ih
  | del t n now _ ih => exact inv_delete o t n now ih
  | co t i now _ ih => exact inv_checkout o t i now ih
  | preview t i _ ih => rw [preview_fst]; exact ih
  | play t _ ih => rw [play_fst]; exact ih
  | save t _ ih => rw [save_fst]; exact ih

/-- `current_lines` right after a push at the tip returns the pushed lines. -/
lemma current_lines_push_tip (t : Timeline) (l : List String) (d now : String)
    (h0 : 0 ≤ t.current_index)
    (h : t.current_index = (t.snapshots.length : Int) - 1) :
    current_lines (push_snapshot t l d now) = l := by
  rw [push_tip t l d now h0 h]
  unfold current_lines snapAt deepcopy
  simp [List.get?_concat_length]

/-- An in-range edit from a state whose cursor is at the tip appends exactly
one snapshot, holding the content and description the method computes. -/
lemma apply_edit_tip (t : Timeline) (e : Edit) (now : String)
    (h0 : 0 ≤ t.current_index)
    (htip : t.current_index = (t.snapshots.length : Int) - 1)
    (he : edit_ok t e = true) :
    apply_edit t e now =
      { t with
        snapshots := t.snapshots ++
          [⟨now, edit_desc (current_lines t) e, edit_lines (current_lines t) e⟩],
        current_index := (t.snapshots.length : Int) } := by
  cases e with
  | rep n s =>
    have hg : 0 ≤ n ∧ n < ((current_lines t).length : Int) :=
      of_decide_eq_true he
    show replace_line t n s now = _
    unfold replace_line
    rw [if_pos hg, push_tip _ _ _ _ h0 htip]
    rfl
  | ins n s =>
    have hg : 0 ≤ n ∧ n ≤ ((current_lines t).length : Int) :=
      of_decide_eq_true he
    show insert_line t n s now = _
    unfold insert_line
    rw [if_pos hg, push_tip _ _ _ _ h0 htip]
    rfl
  | del n =>
    have hg : 0 ≤ n ∧ n < ((current_lines t).length : Int) :=
      of_decide_eq_true he
    show delete_line t n now = _
    unfold delete_line
    rw [if_pos hg, push_tip _ _ _ _ h0 htip]
    rfl

/-- Every method image of a reachable state is reachable. -/
lemma reachable_apply_edit (o : List String) (t : Timeline) (e : Edit)
    (now : String) (hr : Reachable o t) :
    Reachable o (apply_edit t e now) := by
  cases e with
  | rep n s => exact Reachable.rep t n s now hr
  | ins n s => exact Reachable.ins t n s now hr
  | del n => exact Reachable.del t n now hr

/-- One in-range edit from a reachable state grows the history by one. -/
lemma edit_step (o : List String) (t : Timeline) (e : Edit) (now : String)
    (hr : Reachable o t) (he : edit_ok t e = true) :
    (apply_edit t e now).snapshots.length = t.snapshots.length + 1 := by
  obtain ⟨hne, hci, -, -⟩ := reachable_inv o t hr
  have hlen : 1 ≤ t.snapshots.length := List.length_pos.mpr hne
  rw [apply_edit_tip t e now (by omega) hci he]
  simp

/-- A prefix of an everywhere-in-range edit sequence is everywhere in
range. -/
lemma edits_ok_take (t : Timeline) (es : List (Edit × String)) (k : Nat)
    (h : edits_ok t es = true) : edits_ok t (es.take k) = true := by
  induction es generalizing t k with
  | nil => simpa using h
  | cons p rest ih =>
    obtain ⟨e, now⟩ := p
    cases k with
    | zero => rfl
    | succ k =>
      rw [List.take_succ_cons]
      unfold edits_ok at h ⊢
      rw [Bool.and_eq_true] at h ⊢
      exact ⟨h.1, ih (apply_edit t e now) k h.2⟩

/-- Running an everywhere-in-range edit sequence from a reachable state adds
one snapshot per edit and stays reachable. -/
lemma apply_edits_spec (o : List String) (t : Timeline)
    (es : List (Edit × String)) (hr : Reachable o t)
    (hv : edits_ok t es = true) :
    (apply_edits t es).snapshots.length = t.snapshots.length + es.length
    ∧ Reachable o (apply_edits t es) := by
  induction es generalizing t with
  | nil => exact ⟨by simp [apply_edits], hr⟩
  | cons p rest ih =>
    obtain ⟨e, now⟩ := p
    unfold edits_ok at hv
    rw [Bool.and_eq_true] at hv
    have h1 := edit_step o t e now hr hv.1
    have hr2 := reachable_apply_edit o t e now hr
    obtain ⟨hl, hrr⟩ := ih (apply_edit t e now) hr2 hv.2
    refine ⟨?_, ?_⟩
    · show (apply_edits (apply_edit t e now) rest).snapshots.length
          = t.snapshots.length + (rest.length + 1)
      rw [hl, h1]
      omega
    · exact hrr

/-- Deleting at the insertion point undoes an insertion. -/
lemma take_drop_insert (L : List α) (n : Nat) (x : α) (h : n ≤ L.length) :
    (L.take n ++ x :: L.drop n).take n ++
      (L.take n ++ x :: L.drop n).drop (n + 1) = L := by
  have h1 : (L.take n).length = n := by
    simp [List.length_take, Nat.min_eq_left h]
  have h2 : (L.take n ++ [x]).length = n + 1 := by
    simp [List.length_append, h1]
  calc (L.take n ++ x :: L.drop n).take n ++
        (L.take n ++ x :: L.drop n).drop (n + 1)
      = ((L.take n ++ [x]) ++ L.drop n).take n ++
        ((L.take n ++ [x]) ++ L.drop n).drop (n + 1) := by
        simp
    _ = L.take n ++ L.drop n := by
        rw [List.drop_left' h2]
        congr 1
        rw [← h1]
        rw [List.take_append_eq_append_take]
        simp [h1]
    _ = L := List.take_append_drop n L

/-- The element sitting at the insertion point after an insertion is the
inserted one. -/
lemma get?_insert_point (L : List α) (n : Nat) (x : α) (h : n ≤ L.length) :
    (L.take n ++ x :: L.drop n).get? n = some x := by
  have h1 : (L.take n).length = n := by
    simp [List.length_take, Nat.min_eq_left h]
  calc (L.take n ++ x :: L.drop n).get? n
      = ((L.take n ++ [x]) ++ L.drop n).get? n := by simp
    _ = (L.take n ++ [x]).get? n := by
        rw [List.get?_append]
        simp [h1]
    _ = some x := by
        have h3 := List.get?_concat_length (L.take n) x
        rw [h1] at h3
        exact h3

/-- C1: for every timeline state and every in-range index `k`, `checkout k`
turns the history into the old entries 0..k followed by exactly one new
snapshot duplicating `snapshots[k].lines`, with `current_index = k + 1`; for
every out-of-range index `checkout` changes no state. -/
theorem checkout_spec (t : Timeline) (k : Int) (now : String) :
    (0 ≤ k → k < (t.snapshots.length : Int) →
      checkout t k now =
        { t with
          snapshots := t.snapshots.take (k.toNat + 1) ++
            [⟨now, "Checkout state " ++ toString k ++ " as new head",
              (snapAt t k.toNat).lines⟩],
          current_index := k + 1 })
    ∧ (¬ (0 ≤ k ∧ k < (t.snapshots.length : Int)) → checkout t k now = t) :=
  ⟨fun h0 h1 => checkout_eq t k now h0 h1, fun h => checkout_oob t k now h⟩

/-- Witness for C1: checking out state 0 of a freshly loaded two-line file. -/
theorem checkout_spec_witness :
    checkout (init_editor ["a", "b"] "t0") 0 "t1" =
      { init_editor ["a", "b"] "t0" with
        snapshots := (init_editor ["a", "b"] "t0").snapshots.take
            ((0 : Int).toNat + 1) ++
          [⟨"t1", "Checkout state " ++ toString (0 : Int) ++ " as new head",
            (snapAt (init_editor ["a", "b"] "t0") (0 : Int).toNat).lines⟩],
        current_index := 0 + 1 } :=
  (checkout_spec (init_editor ["a", "b"] "t0") 0 "t1").1 (by decide) (by decide)

/-- C2: for every timeline state the program builds (cursor at least -1) and
every line sequence, `push_snapshot` keeps exactly the entries up to the
cursor, appends one snapshot made of the given lines, time and description,
and puts the cursor on the new last index; the loaded original is
untouched. -/
theorem push_snapshot_spec (t : Timeline) (lines : List String)
    (desc now : String) (h : -1 ≤ t.current_index) :
    (push_snapshot t lines desc now).snapshots =
        t.snapshots.take ((t.current_index + 1).toNat) ++ [⟨now, desc, lines⟩]
    ∧ (push_snapshot t lines desc now).current_index =
        ((push_snapshot t lines desc now).snapshots.length : Int) - 1
    ∧ (push_snapshot t lines desc now).original = t.original := by
  rw [push_eq t lines desc now h]
  refine ⟨rfl, ?_, rfl⟩
  simp only [List.length_append, List.length_cons, List.length_nil]
  push_cast
  omega

/-- Witness for C2: a push from a non-tip cursor truncates the divergent
future and appends. -/
theorem push_snapshot_spec_witness :
    (push_snapshot wtl ["c"] "d2" "t2").snapshots =
        wtl.snapshots.take ((wtl.current_index + 1).toNat) ++
          [⟨"t2", "d2", ["c"]⟩]
    ∧ (push_snapshot wtl ["c"] "d2" "t2").current_index =
        (((push_snapshot wtl ["c"] "d2" "t2").snapshots.length : Int)) - 1
    ∧ (push_snapshot wtl ["c"] "d2" "t2").original = wtl.original :=
  push_snapshot_spec wtl ["c"] "d2" "t2" (by decide)

/-- C3: every reachable state has a nonempty history, an in-range cursor and
the originally loaded content in snapshot 0. -/
theorem timeline_invariant (o : List String) (t : Timeline)
    (h : Reachable o t) :
    t.snapshots ≠ []
    ∧ 0 ≤ t.current_index
    ∧ t.current_index < (t.snapshots.length : Int)
    ∧ (t.snapshots.get? 0).map Snapshot.lines = some o := by
  obtain ⟨hne, hci, hhead, -⟩ := reachable_inv o t h
  have hlen : 1 ≤ t.snapshots.length := List.length_pos.mpr hne
  exact ⟨hne, by omega, by omega, hhead⟩

/-- Witness for C3: the invariant at a freshly constructed editor. -/
theorem timeline_invariant_witness :
    (init_editor ["a"] "t0").snapshots ≠ []
    ∧ 0 ≤ (init_editor ["a"] "t0").current_index
    ∧ (init_editor ["a"] "t0").current_index
        < ((init_editor ["a"] "t0").snapshots.length : Int)
    ∧ ((init_editor ["a"] "t0").snapshots.get? 0).map Snapshot.lines
        = some ["a"] :=
  timeline_invariant ["a"] (init_editor ["a"] "t0") (Reachable.init "t0")

/-- C5 is false on the code: in the scenario of section 8, `checkout(0)`
truncates the replace and insert snapshots, so the history has 2 snapshots
after the checkout (the claim says 4) and 3 after the final delete (the
claim says 5). -/
theorem scenario_counterexample :
    demo3.snapshots.length = 2 ∧ ¬ (demo3.snapshots.length = 4)
    ∧ demo4.snapshots.length = 3 ∧ ¬ (demo4.snapshots.length = 5) := by
  decide

/-- C5 amended: the current content evolves as the claim says, but
`checkout(0)` truncates: the counts are 2, 3, 2, 3 and at the end only the
original, the checkout duplicate, and the delete result are stored. -/
theorem scenario_amended :
    current_lines demo1 = ["a", "B", "c"] ∧ demo1.snapshots.length = 2
    ∧ current_lines demo2 = ["Z", "a", "B", "c"] ∧ demo2.snapshots.length = 3
    ∧ current_lines demo3 = ["a", "b", "c"] ∧ demo3.snapshots.length = 2
    ∧ current_lines demo4 = ["b", "c"] ∧ demo4.snapshots.length = 3
    ∧ demo4.snapshots.map Snapshot.lines
        = [["a", "b", "c"], ["a", "b", "c"], ["b", "c"]] := by
  decide

/-- C6: every mutating method called with an out-of-range index reports the
out-of-range message and returns the state unchanged, and `preview_state`
reports out of range without touching the state. -/
theorem out_of_range_noop (t : Timeline) (n i : Int) (s now : String) :
    (¬ (0 ≤ n ∧ n < ((current_lines t).length : Int)) →
        replace_line t n s now = t
        ∧ replace_line_msg t n = "Line number out of range."
        ∧ delete_line t n now = t
        ∧ delete_line_msg t n = "Line number out of range.")
    ∧ (¬ (0 ≤ n ∧ n ≤ ((current_lines t).length : Int)) →
        insert_line t n s now = t
        ∧ insert_line_msg t n = "Line number out of range.")
    ∧ (¬ (0 ≤ i ∧ i < (t.snapshots.length : Int)) →
        checkout t i now = t
        ∧ checkout_msg t i now = "Index out of range."
        ∧ preview_state t i = (t, none)) := by
  refine ⟨fun h => ?_, fun h => ?_, fun h => ?_⟩
  · refine ⟨?_, ?_, ?_, ?_⟩
    · unfold replace_line; rw [if_neg h]
    · unfold replace_line_msg; rw [if_neg h]
    · unfold delete_line; rw [if_neg h]
    · unfold delete_line_msg; rw [if_neg h]
  · refine ⟨?_, ?_⟩
    · unfold insert_line; rw [if_neg h]
    · unfold insert_line_msg; rw [if_neg h]
  · refine ⟨checkout_oob t i now h, ?_, ?_⟩
    · unfold checkout_msg; rw [if_neg h]
    · unfold preview_state; rw [if_neg h]

/-- Witness for C6: line number 5 and snapshot index -1 on a one-line file
are rejected without any state change. -/
theorem out_of_range_noop_witness :
    (replace_line (init_editor ["a"] "t0") 5 "s" "t1" = init_editor ["a"] "t0"
      ∧ replace_line_msg (init_editor ["a"] "t0") 5
          = "Line number out of range."
      ∧ delete_line (init_editor ["a"] "t0") 5 "t1" = init_editor ["a"] "t0"
      ∧ delete_line_msg (init_editor ["a"] "t0") 5
          = "Line number out of range.")
    ∧ (insert_line (init_editor ["a"] "t0") 5 "s" "t1" = init_editor ["a"] "t0"
      ∧ insert_line_msg (init_editor ["a"] "t0") 5
          = "Line number out of range.")
    ∧ (checkout (init_editor ["a"] "t0") (-1) "t1" = init_editor ["a"] "t0"
      ∧ checkout_msg (init_editor ["a"] "t0") (-1) "t1" = "Index out of range."
      ∧ preview_state (init_editor ["a"] "t0") (-1)
          = (init_editor ["a"] "t0", none)) :=
  ⟨(out_of_range_noop (init_editor ["a"] "t0") 5 (-1) "s" "t1").1 (by decide),
   (out_of_range_noop (init_editor ["a"] "t0") 5 (-1) "s" "t1").2.1 (by decide),
   (out_of_range_noop (init_editor ["a"] "t0") 5 (-1) "s" "t1").2.2 (by decide)⟩

/-- C9 is false as a universal statement: for the empty line sequence the
written content is the empty string, which is not newline-terminated and
differs from the join-plus-newline the spec describes. -/
theorem write_file_counterexample :
    write_file [] = "" ∧ write_file [] ≠ write_file_spec []
    ∧ (write_file []).data.getLast? ≠ some (Char.ofNat 10) := by
  decide

/-- C9 amended: for every nonempty line sequence whose last line does not
already end in a newline character, the written content is the lines joined
by newline followed by one appended newline, and its last character is a
newline. -/
theorem write_file_amended (lines : List String) (h1 : lines ≠ [])
    (h2 : ends_newline ((lines.getLast?).getD "") = false) :
    write_file lines = String.intercalate "\n" lines ++ "\n"
    ∧ (write_file lines).data.getLast? = some (Char.ofNat 10) := by
  have he : write_file lines = String.intercalate "\n" lines ++ "\n" := by
    unfold write_file
    rw [if_pos ⟨h1, h2⟩]
  refine ⟨he, ?_⟩
  rw [he, String.data_append]
  have hd : ("\n" : String).data = [Char.ofNat 10] := rfl
  rw [hd]
  exact List.getLast?_concat _

/-- Witness for C9 amended: writing a single line `a`. -/
theorem write_file_amended_witness :
    write_file ["a"] = String.intercalate "\n" ["a"] ++ "\n"
    ∧ (write_file ["a"]).data.getLast? = some (Char.ofNat 10) :=
  write_file_amended ["a"] (by decide) (by decide)

/-- C10: in every reachable state the cursor sits on the tip; the read-only
methods return the state unchanged; consequently an in-range edit from a
reachable state discards nothing and appends exactly one snapshot. -/
theorem cursor_always_at_tip (o : List String) (t : Timeline) (e : Edit)
    (i : Int) (now : String) :
    (Reachable o t → t.current_index = (t.snapshots.length : Int) - 1)
    ∧ (preview_state t i).1 = t
    ∧ (play t).1 = t
    ∧ (save t).1 = t
    ∧ (Reachable o t → edit_ok t e = true →
        (apply_edit t e now).snapshots = t.snapshots ++
          [⟨now, edit_desc (current_lines t) e,
            edit_lines (current_lines t) e⟩]) := by
  refine ⟨fun h => (reachable_inv o t h).2.1, preview_fst t i, play_fst t,
    save_fst t, fun h he => ?_⟩
  obtain ⟨hne, hci, -, -⟩ := reachable_inv o t h
  have hlen : 1 ≤ t.snapshots.length := List.length_pos.mpr hne
  rw [apply_edit_tip t e now (by omega) hci he]

/-- Witness for C10: a fresh editor has its cursor at the tip, and one
in-range insertion from it appends exactly one snapshot. -/
theorem cursor_always_at_tip_witness :
    (init_editor ["a"] "t0").current_index
        = ((init_editor ["a"] "t0").snapshots.length : Int) - 1
    ∧ (apply_edit (init_editor ["a"] "t0") (Edit.ins 0 "z") "t1").snapshots
        = (init_editor ["a"] "t0").snapshots ++
          [⟨"t1",
            edit_desc (current_lines (init_editor ["a"] "t0")) (Edit.ins 0 "z"),
            edit_lines (current_lines (init_editor ["a"] "t0"))
              (Edit.ins 0 "z")⟩] :=
  ⟨(cursor_always_at_tip ["a"] (init_editor ["a"] "t0") (Edit.ins 0 "z") 0
      "t1").1 (Reachable.init "t0"),
   (cursor_always_at_tip ["a"] (init_editor ["a"] "t0") (Edit.ins 0 "z") 0
      "t1").2.2.2.2 (Reachable.init "t0") (by decide)⟩

/-- C7: along every sequence of edits that are in range when they run, the
history grows by exactly one snapshot per edit and snapshot 0 keeps the
loaded content throughout. -/
theorem valid_edit_sequence_spec (o : List String) (t : Timeline)
    (es : List (Edit × String)) (hr : Reachable o t)
    (hv : edits_ok t es = true) :
    (apply_edits t es).snapshots.length = t.snapshots.length + es.length
    ∧ (∀ k, k < es.length →
        (apply_edits t (es.take (k + 1))).snapshots.length
          = (apply_edits t (es.take k)).snapshots.length + 1)
    ∧ (∀ k, ((apply_edits t (es.take k)).snapshots.get? 0).map Snapshot.lines
        = some o) := by
  refine ⟨(apply_edits_spec o t es hr hv).1, fun k hk => ?_, fun k => ?_⟩
  · have ha := (apply_edits_spec o t (es.take (k + 1)) hr
      (edits_ok_take t es (k + 1) hv)).1
    have hb := (apply_edits_spec o t (es.take k) hr
      (edits_ok_take t es k hv)).1
    rw [ha, hb]
    simp only [List.length_take]
    omega
  · have hb := (apply_edits_spec o t (es.take k) hr
      (edits_ok_take t es k hv)).2
    exact (reachable_inv o _ hb).2.2.1

/-- Witness for C7: inserting then deleting a line on a fresh one-line file
adds two snapshots. -/
theorem valid_edit_sequence_spec_witness :
    (apply_edits (init_editor ["a"] "w0") wes).snapshots.length
      = (init_editor ["a"] "w0").snapshots.length + wes.length :=
  (valid_edit_sequence_spec ["a"] (init_editor ["a"] "w0") wes
    (Reachable.init "w0") (by decide)).1

/-- C4 is false as counted: checking out past point 0 of a two-snapshot
history and making one valid edit yields 3 snapshots (entries 0..k, the
checkout entry k+1 and the edit entry k+2, i.e. k+3 in total), not the
claimed k+2. -/
theorem checkout_edit_count_counterexample :
    (0 : Int) < co1.current_index
    ∧ edit_ok (checkout co1 0 "s2") (Edit.ins 0 "z") = true
    ∧ co2.snapshots.length = 3
    ∧ ¬ (co2.snapshots.length = (0 : Int).toNat + 2) := by
  decide

/-- C4 amended: from a reachable state, checkout of a past point `k`
followed by one in-range edit yields exactly `k + 3` snapshots: entries
0..k unchanged, entry `k+1` the checkout duplicate of snapshot `k`, entry
`k+2` the new edit, the cursor on it, and everything past the old tip
gone. -/
theorem checkout_then_edit_spec (o : List String) (t : Timeline) (k : Int)
    (e : Edit) (now now2 : String) (hr : Reachable o t) (h0 : 0 ≤ k)
    (hk : k < t.current_index)
    (he : edit_ok (checkout t k now) e = true) :
    (apply_edit (checkout t k now) e now2).snapshots.length = k.toNat + 3
    ∧ (∀ j : Nat, j ≤ k.toNat →
        (apply_edit (checkout t k now) e now2).snapshots.get? j
          = t.snapshots.get? j)
    ∧ ((apply_edit (checkout t k now) e now2).snapshots.get?
          (k.toNat + 1)).map Snapshot.lines = some ((snapAt t k.toNat).lines)
    ∧ ((apply_edit (checkout t k now) e now2).snapshots.get?
          (k.toNat + 2)).map Snapshot.lines
        = some (edit_lines ((snapAt t k.toNat).lines) e)
    ∧ (apply_edit (checkout t k now) e now2).current_index = k + 2 := by
  obtain ⟨hne, hci, hhead, -⟩ := reachable_inv o t hr
  have hlen : 1 ≤ t.snapshots.length := List.length_pos.mpr hne
  have hklen : k < (t.snapshots.length : Int) := by omega
  have hle : k.toNat + 1 ≤ t.snapshots.length := by omega
  have hco := checkout_eq t k now h0 hklen
  set tc := checkout t k now with htc
  have htake : (t.snapshots.take (k.toNat + 1)).length = k.toNat + 1 := by
    simp only [List.length_take]
    omega
  have hcs : tc.snapshots = t.snapshots.take (k.toNat + 1) ++
      [⟨now, "Checkout state " ++ toString k ++ " as new head",
        (snapAt t k.toNat).lines⟩] := by
    rw [hco]
  have hlen2 : tc.snapshots.length = k.toNat + 2 := by
    rw [hcs]
    simp only [List.length_append, List.length_cons, List.length_nil, htake]
  have hcci : tc.current_index = k + 1 := by rw [hco]
  have hmid := List.get?_concat_length (t.snapshots.take (k.toNat + 1))
    (⟨now, "Checkout state " ++ toString k ++ " as new head",
      (snapAt t k.toNat).lines⟩ : Snapshot)
  rw [htake] at hmid
  have hmid2 : tc.snapshots.get? (k.toNat + 1) =
      some ⟨now, "Checkout state " ++ toString k ++ " as new head",
        (snapAt t k.toNat).lines⟩ := by
    rw [hcs]
    exact hmid
  have hcl : current_lines tc = (snapAt t k.toNat).lines := by
    unfold current_lines snapAt deepcopy
    have hn : tc.current_index.toNat = k.toNat + 1 := by omega
    rw [hn, hmid2]
    rfl
  have hedit := apply_edit_tip tc e now2 (by omega)
    (by rw [hcci, hlen2]; push_cast; omega) he
  rw [hedit]
  have hlast := List.get?_concat_length tc.snapshots
    (⟨now2, edit_desc (current_lines tc) e,
      edit_lines (current_lines tc) e⟩ : Snapshot)
  rw [hlen2] at hlast
  refine ⟨?_, ?_, ?_, ?_, ?_⟩
  · simp only [List.length_append, List.length_cons, List.length_nil, hlen2]
  · intro j hj
    show (tc.snapshots ++ _).get? j = t.snapshots.get? j
    rw [List.get?_append (by omega)]
    rw [hcs, List.get?_append (by omega), List.get?_take (by omega)]
  · show ((tc.snapshots ++ _).get? (k.toNat + 1)).map Snapshot.lines = _
    rw [List.get?_append (by omega), hmid2]
    rfl
  · show ((tc.snapshots ++ _).get? (k.toNat + 2)).map Snapshot.lines = _
    rw [hlast]
    show some (edit_lines (current_lines tc) e) = _
    rw [hcl]
  · show (tc.snapshots.length : Int) = k + 2
    rw [hlen2]
    push_cast
    omega

/-- Witness for C4 amended: the concrete checkout-then-insert run has
0 + 3 snapshots. -/
theorem checkout_then_edit_spec_witness :
    (apply_edit (checkout co1 0 "s2") (Edit.ins 0 "z") "s3").snapshots.length
      = (0 : Int).toNat + 3 :=
  (checkout_then_edit_spec ["x"] co1 0 (Edit.ins 0 "z") "s2" "s3"
    (Reachable.rep (init_editor ["x"] "s0") 0 "y" "s1" (Reachable.init "s0"))
    (by decide) (by decide) (by decide)).1

/-- C8: from a reachable state, inserting a line at any position n up to the
current length and then deleting at n restores the current content, while
the history gains two snapshots, the first of which differs from the
restored content (so the pair is not a no-op on the timeline). -/
theorem insert_delete_round_trip (o : List String) (t : Timeline) (n : Int)
    (X now now2 : String) (hr : Reachable o t) (h0 : 0 ≤ n)
    (hle : n ≤ ((current_lines t).length : Int)) :
    current_lines (delete_line (insert_line t n X now) n now2)
        = current_lines t
    ∧ (delete_line (insert_line t n X now) n now2).snapshots
        = t.snapshots ++
          [⟨now, "Insert at " ++ toString n ++ ": " ++ X,
            (current_lines t).take n.toNat ++
              X :: (current_lines t).drop n.toNat⟩,
           ⟨now2, "Delete line " ++ toString n ++ ": " ++ X,
            current_lines t⟩]
    ∧ ((current_lines t).take n.toNat ++ X :: (current_lines t).drop n.toNat)
        ≠ current_lines t := by
  obtain ⟨hne, hci, -, -⟩ := reachable_inv o t hr
  have hlen : 1 ≤ t.snapshots.length := List.length_pos.mpr hne
  have hmle : n.toNat ≤ (current_lines t).length := by omega
  have htk : ((current_lines t).take n.toNat).length = n.toNat := by
    simp only [List.length_take]
    omega
  have hL2len : ((current_lines t).take n.toNat ++
      X :: (current_lines t).drop n.toNat).length
      = (current_lines t).length + 1 := by
    simp only [List.length_append, List.length_cons, List.length_drop, htk]
    omega
  have hg1 : 0 ≤ n ∧ n ≤ ((current_lines t).length : Int) := ⟨h0, hle⟩
  have hins : insert_line t n X now =
      push_snapshot t
        ((current_lines t).take n.toNat ++ X :: (current_lines t).drop n.toNat)
        ("Insert at " ++ toString n ++ ": " ++ X) now := by
    unfold insert_line
    rw [if_pos hg1]
  set t1 := insert_line t n X now with ht1
  have ht1e : t1 = { t with
      snapshots := t.snapshots ++
        [⟨now, "Insert at " ++ toString n ++ ": " ++ X,
          (current_lines t).take n.toNat ++
            X :: (current_lines t).drop n.toNat⟩],
      current_index := (t.snapshots.length : Int) } := by
    rw [hins]
    exact push_tip t _ _ now (by omega) hci
  have ht1cl : current_lines t1 =
      (current_lines t).take n.toNat ++ X :: (current_lines t).drop n.toNat := by
    rw [hins]
    exact current_lines_push_tip t _ _ now (by omega) hci
  have ht1ci0 : 0 ≤ t1.current_index := by
    rw [ht1e]
    show (0 : Int) ≤ (t.snapshots.length : Int)
    omega
  have ht1ci : t1.current_index = (t1.snapshots.length : Int) - 1 := by
    rw [ht1e]
    show (t.snapshots.length : Int) =
      ((t.snapshots ++ [_]).length : Int) - 1
    simp only [List.length_append, List.length_cons, List.length_nil]
    push_cast
    omega
  have hg2 : 0 ≤ n ∧ n < ((current_lines t1).length : Int) := by
    rw [ht1cl, hL2len]
    constructor
    · exact h0
    · push_cast
      omega
  have hget : (current_lines t1).get? n.toNat = some X := by
    rw [ht1cl]
    exact get?_insert_point (current_lines t) n.toNat X hmle
  have hgetD : ((current_lines t1).get? n.toNat).getD "" = X := by
    rw [hget]
    rfl
  have hrestore : (current_lines t1).take n.toNat ++
      (current_lines t1).drop (n.toNat + 1) = current_lines t := by
    rw [ht1cl]
    exact take_drop_insert (current_lines t) n.toNat X hmle
  have hpush : delete_line t1 n now2 =
      push_snapshot t1 (current_lines t)
        ("Delete line " ++ toString n ++ ": " ++ X) now2 := by
    unfold delete_line
    rw [if_pos hg2, hgetD, hrestore]
  refine ⟨?_, ?_, ?_⟩
  · rw [hpush]
    exact current_lines_push_tip t1 _ _ now2 ht1ci0 ht1ci
  · rw [hpush, push_tip t1 _ _ now2 ht1ci0 ht1ci]
    show t1.snapshots ++ _ = _
    rw [ht1e]
    show (t.snapshots ++ _) ++ _ = _
    rw [List.append_assoc]
    rfl
  · intro hcontra
    have hlc := congrArg List.length hcontra
    rw [hL2len] at hlc
    omega

/-- Witness for C8: insert `X` at position 0 of a one-line file, then delete
it; the current content is back to the original line. -/
theorem insert_delete_round_trip_witness :
    current_lines (delete_line (insert_line (init_editor ["a"] "r0") 0 "X"
        "r1") 0 "r2")
      = current_lines (init_editor ["a"] "r0") :=
  (insert_delete_round_trip ["a"] (init_editor ["a"] "r0") 0 "X" "r1" "r2"
    (Reachable.init "r0") (by decide) (by decide)).1
